import Mathlib

/-!
Verification of `manage_db.py` (leagues / teams / players manager).

The definitions below are a shallow embedding of the Python source:
strings are Lean `String`s (lists of `Char`), Python `re` substitutions
become structural recursions over `List Char`, Python sets become
deduplicated lists (membership is what matters), and the interactive
menu operations become pure functions from the loaded collections and
the operator-provided field values to the updated collections.
-/

namespace ManageDb

/-! ## Character-level helpers for `slugify` -/

/-- Whitespace as matched by the regex class `\s` (modelled on the ASCII
whitespace characters — space, tab, newline, carriage return, vertical tab,
form feed — which are the ones the repository's data can contain). -/
def pyIsSpace (c : Char) : Bool :=
  c.toNat == 32 || c.toNat == 9 || c.toNat == 10 ||
    c.toNat == 13 || c.toNat == 11 || c.toNat == 12

/-- `str.lower()`: ASCII uppercase (code points 65–90) is mapped to
lowercase, other ASCII is unchanged; of the non-ASCII code points, the
accented uppercase letters occurring in the repository's Spanish-language
data are mapped to their lowercase forms and the rest are left unchanged. -/
def pyLower (c : Char) : Char :=
  if 65 ≤ c.toNat ∧ c.toNat ≤ 90 then Char.ofNat (c.toNat + 32)
  else if c.toNat < 128 then c
  else if c = 'Á' then 'á'
  else if c = 'É' then 'é'
  else if c = 'Í' then 'í'
  else if c = 'Ó' then 'ó'
  else if c = 'Ú' then 'ú'
  else if c = 'Ü' then 'ü'
  else if c = 'Ñ' then 'ñ'
  else c

/-- `unicodedata.normalize('NFD', ·)` followed by removal of the combining
marks (category `Mn`), per code point: ASCII is NFD-stable and never `Mn`;
the precomposed Latin letters occurring in the repository's Spanish-language
data decompose to their base letter; bare combining marks are removed;
other code points are left unchanged. -/
def nfdStripMn (c : Char) : List Char :=
  if c.toNat < 128 then [c]
  else if c = 'á' then ['a']
  else if c = 'é' then ['e']
  else if c = 'í' then ['i']
  else if c = 'ó' then ['o']
  else if c = 'ú' then ['u']
  else if c = 'ü' then ['u']
  else if c = 'ñ' then ['n']
  else if c = 'Á' then ['A']
  else if c = 'É' then ['E']
  else if c = 'Í' then ['I']
  else if c = 'Ó' then ['O']
  else if c = 'Ú' then ['U']
  else if c = 'Ü' then ['U']
  else if c = 'Ñ' then ['N']
  else if c.toNat = 0x300 ∨ c.toNat = 0x301 ∨ c.toNat = 0x303 ∨ c.toNat = 0x308 then []
  else [c]

/-- `'a' ≤ c ≤ 'z'` or `'0' ≤ c ≤ '9'`, by code point. -/
def isLowerAlnum (c : Char) : Bool :=
  decide ((97 ≤ c.toNat ∧ c.toNat ≤ 122) ∨ (48 ≤ c.toNat ∧ c.toNat ≤ 57))

/-- Characters kept by `re.sub(r'[^a-z0-9\s-]', '', s)`. -/
def isSlugKeep (c : Char) : Bool :=
  isLowerAlnum c || pyIsSpace c || c.toNat == 45

/-- Characters a finished slug may contain: lowercase ASCII letters,
digits, and the hyphen. -/
def isSlugChar (c : Char) : Bool :=
  isLowerAlnum c || c.toNat == 45

/-- `re.sub(p+, rep, s)` for a single-character class `p`: every maximal run
of characters satisfying `p` is replaced by the single character `rep`.
The flag records whether the previous character belonged to a run. -/
def squashRuns (p : Char → Bool) (rep : Char) : Bool → List Char → List Char
  | _, [] => []
  | prev, c :: rest =>
    if p c then
      if prev then squashRuns p rep true rest
      else rep :: squashRuns p rep true rest
    else c :: squashRuns p rep false rest

/-- Python `str.strip(chars)`: remove the maximal prefix and suffix of
characters satisfying `p`. -/
def pyStrip (p : Char → Bool) (l : List Char) : List Char :=
  List.rdropWhile p (l.dropWhile p)

/-- The hyphen predicate of `strip('-')` and `re.sub(r'-+', '-', s)`. -/
def isHyphen (c : Char) : Bool := c == '-'

/-- `slugify` over the character list of the input (lines 84–91 of
`manage_db.py`): strip + lowercase, NFD + drop combining marks, delete
characters outside `[a-z0-9\s-]`, turn whitespace runs into single hyphens,
strip boundary hyphens, collapse hyphen runs. -/
def slugifyList (l : List Char) : List Char :=
  let s1 := (pyStrip pyIsSpace l).map pyLower
  let s2 := s1.flatMap nfdStripMn
  let s3 := s2.filter isSlugKeep
  let s4 := pyStrip isHyphen (squashRuns pyIsSpace '-' false s3)
  squashRuns isHyphen '-' false s4

/-- `slugify(s)` (lines 84–91). -/
def slugify (s : String) : String :=
  ⟨slugifyList s.data⟩

/-! ## Decimal rendering of integers (Python `f"{s}-{i}"` and `str(n)`) -/

/-- The decimal digit character for `d`. -/
def digitChar (d : Nat) : Char :=
  Char.ofNat (48 + d)

/-- A decimal digit character (code points 48–57). -/
def isDigitChar (c : Char) : Bool :=
  decide (48 ≤ c.toNat ∧ c.toNat ≤ 57)

/-- Big-endian decimal digits of `n`, fuel-indexed (any fuel `≥ n` is exact). -/
def natToDigitsAux : Nat → Nat → List Char
  | _, 0 => []
  | 0, _ + 1 => []
  | fuel + 1, n + 1 => natToDigitsAux fuel ((n + 1) / 10) ++ [digitChar ((n + 1) % 10)]

/-- Python's decimal rendering of a non-negative integer (`str(n)`). -/
def natRepr (n : Nat) : String :=
  if n = 0 then "0" else ⟨natToDigitsAux n n⟩

/-- Decimal value of a digit string (Python `int` on an all-digit string). -/
def digitsVal (l : List Char) : Nat :=
  l.foldl (fun a c => a * 10 + (c.toNat - 48)) 0

/-! ## `unique_slug` (lines 93–100) -/

/-- The `while f"{s}-{i}" in existing_slugs: i += 1` loop of `unique_slug`,
probing suffixes `i`, `i+1`, … and returning the first suffixed form not in
`used`.  The fuel bound `used.length + 1` chosen at the call site is proved
sufficient: the loop always exits before the fuel runs out. -/
def probeFrom (s : String) (used : List String) : Nat → Nat → String
  | 0, i => s ++ "-" ++ natRepr i
  | fuel + 1, i =>
    if (s ++ "-" ++ natRepr i) ∈ used then probeFrom s used fuel (i + 1)
    else s ++ "-" ++ natRepr i

/-- The candidate slug computed by lines 94–95 of `unique_slug`:
`slugify(base)`, or the fallback `'item'` when that is empty. -/
def slug_candidate (base : String) : String :=
  let s0 := slugify base
  if s0 = "" then "item" else s0

/-- `unique_slug(base, existing_slugs)` (lines 93–100). -/
def unique_slug (base : String) (used : List String) : String :=
  let s := slug_candidate base
  if s ∈ used then probeFrom s used (used.length + 1) 2 else s

/-- `ensure_slug_entity(name, existing_slugs)` (line 354): the Python
`set(s for s in existing_slugs if s)` is embedded as the deduplicated list
of the non-empty slugs (membership coincides). -/
def ensure_slug_entity (name : String) (existing : List String) : String :=
  unique_slug name ((existing.filter (fun s => s != "")).dedup)

/-! ## `next_id` (lines 80–82) -/

/-- Python `str.isdigit()` on the id strings of the repository's data:
non-empty and all decimal digits. -/
def pyIsDigitStr (s : String) : Bool :=
  !s.data.isEmpty && s.data.all isDigitChar

/-- Python `int` on an all-digit string. -/
def strToNat (s : String) : Nat :=
  digitsVal s.data

/-- `next_id(rows)` (lines 80–82), applied to the `id` fields of the rows
(a row with no `id` key contributes the empty string, which `isdigit`
rejects).  `max(ids)` on a non-empty Python list is the left fold of
binary `max` over the list. -/
def next_id (rows : List String) : String :=
  let ids := (rows.filter pyIsDigitStr).map strToNat
  match ids with
  | [] => natRepr 1
  | x :: xs => natRepr (xs.foldl max x + 1)

/-! ## `valid_date` (lines 102–107)

`datetime.strptime(s, '%Y-%m-%d')` succeeds exactly when `s` splits on the
literal hyphens into three fields `Y-M-D` where `Y` is exactly four digits,
`M` matches `1[0-2]|0[1-9]|[1-9]` (one or two digits, value 1..12), `D`
matches `3[01]|[12]\d|0[1-9]|[1-9]` (one or two digits, value 1..31), and
the `datetime` constructor then accepts the triple: year within
`MINYEAR = 1`..`MAXYEAR = 9999` and day at most the length of that month in
the proleptic Gregorian calendar. -/

/-- Split a character list on `'-'` (the format string's literal hyphens;
no digit field can contain a hyphen, so the split determines the fields). -/
def splitOnHyphen : List Char → List (List Char)
  | [] => [[]]
  | c :: rest =>
    let r := splitOnHyphen rest
    if c = '-' then [] :: r
    else
      match r with
      | g :: gs => (c :: g) :: gs
      | [] => [[c]]

/-- The `%m` field regex `1[0-2]|0[1-9]|[1-9]`: one or two digits with
value 1..12. -/
def monthTok (m : List Char) : Bool :=
  m.all isDigitChar && (m.length == 1 || m.length == 2) &&
    decide (1 ≤ digitsVal m) && decide (digitsVal m ≤ 12)

/-- The `%d` field regex `3[01]|[12]\d|0[1-9]|[1-9]`: one or two digits with
value 1..31. -/
def dayTok (d : List Char) : Bool :=
  d.all isDigitChar && (d.length == 1 || d.length == 2) &&
    decide (1 ≤ digitsVal d) && decide (digitsVal d ≤ 31)

/-- Proleptic Gregorian leap year, as used by `datetime`. -/
def isLeapYear (y : Nat) : Bool :=
  (y % 4 == 0 && y % 100 != 0) || y % 400 == 0

/-- Length of month `m` of year `y`, as validated by the `datetime`
constructor. -/
def daysInMonth (y m : Nat) : Nat :=
  if m = 2 then (if isLeapYear y then 29 else 28)
  else if m = 4 || m = 6 || m = 9 || m = 11 then 30
  else 31

/-- No two consecutive hyphens. -/
def noDoubleHyphen : List Char → Bool
  | [] => true
  | [_] => true
  | a :: b :: rest => !(a == '-' && b == '-') && noDoubleHyphen (b :: rest)

/-- A well-formed slug: only lowercase ASCII letters, digits and hyphens,
no hyphen at either boundary, no two consecutive hyphens. -/
def wellFormedSlugList (l : List Char) : Bool :=
  l.all isSlugChar && !(l.head? == some '-') && !(l.getLast? == some '-') &&
    noDoubleHyphen l

/-- `wellFormedSlugList` on the characters of a string. -/
def wellFormedSlug (s : String) : Bool :=
  wellFormedSlugList s.data

/-- `valid_date(s)` (lines 102–107). -/
def valid_date (s : String) : Bool :=
  match splitOnHyphen s.data with
  | [y, m, d] =>
    (y.length == 4) && y.all isDigitChar && monthTok m && dayTok d &&
      decide (1 ≤ digitsVal y) &&
      decide (digitsVal d ≤ daysInMonth (digitsVal y) (digitsVal m))
  | _ => false

/-! ## Data model (normalized records, as produced by `load_all`) -/

/-- A league record (columns of `data/ligas.csv`). -/
structure League where
  id : String
  name : String
  country : String
  logo : String
  slug : String
  deriving DecidableEq

/-- A team record (columns of `data/equipos.csv`). -/
structure Team where
  id : String
  name : String
  league_id : String
  logo : String
  slug : String
  deriving DecidableEq

/-- A player record (columns of `data/jugadores.csv`); `load_all` coerces
`rating` to an integer (0 on failure). -/
structure Player where
  id : String
  first_name : String
  last_name : String
  birth_date : String
  team_id : String
  country : String
  photo : String
  position : String
  rating : Int
  sofifa_url : String
  face_video_url : String
  slug : String
  deriving DecidableEq

/-- `ALLOWED_POSITIONS` (line 47). -/
def ALLOWED_POSITIONS : List String :=
  ["Arquero", "Defensor", "Mediocampista", "Delantero"]

/-! ## `validate` (lines 159–193) -/

/-- One reported violation, identifying the offending record and rule, as
printed by `validate`. -/
inductive Violation where
  | dupSlugLeagues
  | dupSlugTeams
  | dupSlugPlayers
  | badLeagueRef (t : Team)
  | badTeamRef (p : Player)
  | badPosition (p : Player)
  | badRating (p : Player)
  | badDate (p : Player)
  deriving DecidableEq

/-- The per-collection duplicate-slug condition of `validate`
(lines 164, 167, 170): `len({slug for each record if slug}) != len(records)` —
the number of distinct non-empty slugs is compared with the total number of
records in the collection. -/
def dup_slug_check (slugs : List String) (total : Nat) : Bool :=
  ((slugs.filter (fun s => s != "")).dedup.length) != total

/-- A team's `league_id` is non-empty and unknown (lines 174–175). -/
def bad_league_ref (ls : List League) (t : Team) : Bool :=
  t.league_id != "" && !(decide (t.league_id ∈ ls.map League.id))

/-- A player's `team_id` is non-empty and unknown (line 179). -/
def bad_team_ref (ts : List Team) (p : Player) : Bool :=
  p.team_id != "" && !(decide (p.team_id ∈ ts.map Team.id))

/-- A player's `position` is non-empty and not allowed (line 182). -/
def bad_position (p : Player) : Bool :=
  p.position != "" && !(decide (p.position ∈ ALLOWED_POSITIONS))

/-- A player's `rating` is non-zero and outside 40..99 (line 185). -/
def bad_rating (p : Player) : Bool :=
  p.rating != 0 && !(decide (40 ≤ p.rating ∧ p.rating ≤ 99))

/-- A player's `birth_date` is non-empty and malformed (line 188). -/
def bad_birth_date (p : Player) : Bool :=
  p.birth_date != "" && !(valid_date p.birth_date)

/-- The violations printed for one player, in the order of the checks in the
player loop (lines 179–190). -/
def player_violations (ts : List Team) (p : Player) : List Violation :=
  (if bad_team_ref ts p then [.badTeamRef p] else []) ++
  (if bad_position p then [.badPosition p] else []) ++
  (if bad_rating p then [.badRating p] else []) ++
  (if bad_birth_date p then [.badDate p] else [])

/-- All violations printed by `validate`, in program order. -/
def validate_violations (ls : List League) (ts : List Team) (ps : List Player) :
    List Violation :=
  (if dup_slug_check (ls.map League.slug) ls.length then [.dupSlugLeagues] else []) ++
  (if dup_slug_check (ts.map Team.slug) ts.length then [.dupSlugTeams] else []) ++
  (if dup_slug_check (ps.map Player.slug) ps.length then [.dupSlugPlayers] else []) ++
  ((ts.filter (bad_league_ref ls)).map .badLeagueRef) ++
  (ps.flatMap (player_violations ts))

/-- The boolean result of `validate`: the `ok` flag starts `True` and is
cleared by every failing check. -/
def validate_ok (ls : List League) (ts : List Team) (ps : List Player) : Bool :=
  !dup_slug_check (ls.map League.slug) ls.length &&
  !dup_slug_check (ts.map Team.slug) ts.length &&
  !dup_slug_check (ps.map Player.slug) ps.length &&
  ts.all (fun t => !bad_league_ref ls t) &&
  ps.all (fun p =>
    !bad_team_ref ts p && !bad_position p && !bad_rating p && !bad_birth_date p)

/-! ### Sample data for the defect-injection scenarios of the spec -/

/-- A minimal consistent dataset: one league. -/
def sampleLeagues : List League :=
  [⟨"1", "Liga Norte", "Chile", "lg", "liga-norte"⟩]

/-- A minimal consistent dataset: one team in league 1. -/
def sampleTeams : List Team :=
  [⟨"1", "Lobos", "1", "lg", "lobos"⟩]

/-- A minimal consistent dataset: one valid player in team 1. -/
def samplePlayers : List Player :=
  [⟨"1", "Ana", "Diaz", "1990-01-01", "1", "Chile", "ph", "Delantero", 90, "",
    "", "ana-diaz"⟩]

/-- Injected defect: a second league re-using the slug `liga-norte`. -/
def dupSlugLeague : League := ⟨"2", "Liga Dos", "AR", "lg", "liga-norte"⟩

/-- Injected defect: the team's `league_id` points at no league. -/
def danglingTeam : Team := ⟨"1", "Lobos", "9", "lg", "lobos"⟩

/-- Injected defect: the player's `team_id` points at no team. -/
def danglingPlayer : Player :=
  ⟨"1", "Ana", "Diaz", "1990-01-01", "9", "Chile", "ph", "Delantero", 90, "",
    "", "ana-diaz"⟩

/-- Injected defect: non-zero rating outside 40..99. -/
def badRatingPlayer : Player :=
  ⟨"1", "Ana", "Diaz", "1990-01-01", "1", "Chile", "ph", "Delantero", 105, "",
    "", "ana-diaz"⟩

/-- Injected defect: a position outside the allowed set. -/
def badPositionPlayer : Player :=
  ⟨"1", "Ana", "Diaz", "1990-01-01", "1", "Chile", "ph", "Striker", 90, "",
    "", "ana-diaz"⟩

/-- Injected defect: a birth date that is not a calendar date. -/
def badDatePlayer : Player :=
  ⟨"1", "Ana", "Diaz", "1990-02-30", "1", "Chile", "ph", "Delantero", 90, "",
    "", "ana-diaz"⟩

/-! ## Mutation operations (the pure cores of the `menu_*` functions) -/

/-- The three collections handled by `load_all` / `save_all`. -/
structure DbState where
  leagues : List League
  teams : List Team
  players : List Player
  deriving DecidableEq

/-- Outcome of a delete operation: the id was not found, the delete was
refused because of dependent players (with the reported count), the operator
declined the confirmation, or the record was removed. -/
inductive DeleteOutcome where
  | notFound
  | blocked (cnt : Nat)
  | cancelled
  | deleted
  deriving DecidableEq

/-- `menu_delete_league` (lines 429–443): on a known id and a confirmed
prompt, drop the league and clear `league_id` on every team that referenced
it; players are untouched. -/
def menu_delete_league (st : DbState) (lid : String) (confirm : Bool) :
    DbState × DeleteOutcome :=
  match st.leagues.find? (fun x => x.id == lid) with
  | none => (st, .notFound)
  | some _ =>
    if confirm then
      ({ st with
          leagues := st.leagues.filter (fun x => !(x.id == lid)),
          teams := st.teams.map (fun t =>
            if t.league_id == lid then { t with league_id := "" } else t) },
        .deleted)
    else (st, .cancelled)

/-- `menu_delete_team` (lines 484–498): on a known id, count the players
whose `team_id` is the team's id; a positive count blocks the delete before
any confirmation; otherwise a confirmed prompt removes the team. -/
def menu_delete_team (st : DbState) (tid : String) (confirm : Bool) :
    DbState × DeleteOutcome :=
  match st.teams.find? (fun x => x.id == tid) with
  | none => (st, .notFound)
  | some _ =>
    let cnt := st.players.countP (fun p => p.team_id == tid)
    if 0 < cnt then (st, .blocked cnt)
    else if confirm then
      ({ st with teams := st.teams.filter (fun x => !(x.id == tid)) }, .deleted)
    else (st, .cancelled)

/-- Replace the first element satisfying `p` (the record located by
`next(x for x in rows if x['id'] == target)` and then mutated in place);
`none` when no element matches (`No encontrado`). -/
def updateFirst (p : α → Bool) (f : α → α) : List α → Option (List α)
  | [] => none
  | x :: xs =>
    if p x then some (f x :: xs)
    else (updateFirst p f xs).map (fun ys => x :: ys)

/-- `menu_edit_league` (lines 413–427): the slug is recomputed over the
other leagues' slugs exactly when the entered name differs from the stored
one; name, country and logo are then applied. -/
def menu_edit_league (ls : List League) (lid name country logo : String) :
    Option (List League) :=
  let others := (ls.filter (fun x => !(x.id == lid))).map League.slug
  updateFirst (fun x => x.id == lid)
    (fun l =>
      { l with
        slug := if name != l.name then ensure_slug_entity name others else l.slug,
        name := name, country := country, logo := logo })
    ls

/-- `menu_edit_team` (lines 467–482): the slug is recomputed over the other
teams' slugs exactly when the entered name differs; name, league and logo
are then applied. -/
def menu_edit_team (ts : List Team) (tid name lid logo : String) :
    Option (List Team) :=
  let others := (ts.filter (fun x => !(x.id == tid))).map Team.slug
  updateFirst (fun x => x.id == tid)
    (fun t =>
      { t with
        slug := if name != t.name then ensure_slug_entity name others else t.slug,
        name := name, league_id := lid, logo := logo })
    ts

/-- `menu_edit_player` (lines 536–570): the slug is recomputed over the
other players' slugs exactly when the entered first or last name differs
from the stored ones; all the other entered fields are then applied. -/
def menu_edit_player (ps : List Player)
    (pid fn ln birth tid country photo position : String)
    (rating : Int) (sofifa face : String) : Option (List Player) :=
  let others := (ps.filter (fun x => !(x.id == pid))).map Player.slug
  updateFirst (fun x => x.id == pid)
    (fun p =>
      { p with
        slug := if fn != p.first_name || ln != p.last_name
                then ensure_slug_entity (fn ++ " " ++ ln) others
                else p.slug,
        first_name := fn, last_name := ln, birth_date := birth, team_id := tid,
        country := country, photo := photo, position := position,
        rating := rating, sofifa_url := sofifa, face_video_url := face })
    ps

/-! ## Properties of the decimal rendering -/

theorem char_eq_of_toNat_eq {c d : Char} (h : c.toNat = d.toNat) : c = d := by
  have h2 := congrArg Char.ofNat h
  rwa [Char.ofNat_toNat, Char.ofNat_toNat] at h2

theorem digitChar_toNat {d : Nat} (hd : d < 10) : (digitChar d).toNat = 48 + d := by
  interval_cases d <;> decide

theorem digitsVal_append (l : List Char) (c : Char) :
    digitsVal (l ++ [c]) = digitsVal l * 10 + (c.toNat - 48) := by
  simp [digitsVal, List.foldl_append]

theorem digitsVal_natToDigitsAux : ∀ fuel n, n ≤ fuel →
    digitsVal (natToDigitsAux fuel n) = n := by
  intro fuel
  induction fuel with
  | zero =>
    intro n hn
    interval_cases n
    rfl
  | succ f ih =>
    intro n hn
    match n with
    | 0 => rfl
    | m + 1 =>
      have hdiv : (m + 1) / 10 ≤ f := by
        have := Nat.div_lt_self (Nat.succ_pos m) (by norm_num : 1 < 10)
        omega
      have hmod : (m + 1) % 10 < 10 := Nat.mod_lt _ (by norm_num)
      simp only [natToDigitsAux]
      rw [digitsVal_append, ih _ hdiv, digitChar_toNat hmod]
      omega

theorem digitsVal_natRepr (n : Nat) : digitsVal (natRepr n).data = n := by
  by_cases h : n = 0
  · subst h; rfl
  · simp only [natRepr, if_neg h]
    exact digitsVal_natToDigitsAux n n le_rfl

theorem natRepr_inj {m n : Nat} (h : natRepr m = natRepr n) : m = n := by
  have h2 := congrArg (fun s => digitsVal s.data) h
  simpa [digitsVal_natRepr] using h2

theorem suffixed_inj {s : String} {j k : Nat}
    (h : s ++ "-" ++ natRepr j = s ++ "-" ++ natRepr k) : j = k := by
  have hd := congrArg String.data h
  simp only [String.data_append, List.append_assoc] at hd
  have h2 := List.append_cancel_left (List.append_cancel_left hd)
  have h3 := congrArg digitsVal h2
  simpa [digitsVal_natRepr] using h3

/-! ## The probe loop of `unique_slug` -/

theorem probeFrom_eq (s : String) (used : List String) :
    ∀ fuel i k, i ≤ k → (s ++ "-" ++ natRepr k) ∉ used →
      (∀ j, i ≤ j → j < k → (s ++ "-" ++ natRepr j) ∈ used) →
      k - i ≤ fuel → probeFrom s used fuel i = s ++ "-" ++ natRepr k := by
  intro fuel
  induction fuel with
  | zero =>
    intro i k hik _ _ hfuel
    have hk : k = i := by omega
    subst hk
    rfl
  | succ f ih =>
    intro i k hik hk hmem hfuel
    by_cases hi : (s ++ "-" ++ natRepr i) ∈ used
    · have hne : i ≠ k := fun h => hk (h ▸ hi)
      simp only [probeFrom, if_pos hi]
      exact ih (i + 1) k (by omega) hk (fun j hj1 hj2 => hmem j (by omega) hj2) (by omega)
    · have hk2 : k = i := by
        by_contra hne
        exact hi (hmem i le_rfl (by omega))
      subst hk2
      simp only [probeFrom, if_neg hi]

theorem exists_free_suffix (s : String) (used : List String) :
    ∃ k, 2 ≤ k ∧ k ≤ used.length + 2 ∧ (s ++ "-" ++ natRepr k) ∉ used := by
  by_contra hcon
  push_neg at hcon
  have hinj : Set.InjOn (fun k => s ++ "-" ++ natRepr k)
      ↑(Finset.Icc 2 (used.length + 2)) := by
    intro a _ b _ hab
    exact suffixed_inj hab
  have hsub : (Finset.Icc 2 (used.length + 2)).image (fun k => s ++ "-" ++ natRepr k)
      ⊆ used.toFinset := by
    intro x hx
    simp only [Finset.mem_image, Finset.mem_Icc] at hx
    obtain ⟨k, ⟨hk2, hkle⟩, rfl⟩ := hx
    exact List.mem_toFinset.mpr (hcon k hk2 hkle)
  have hcard := Finset.card_le_card hsub
  rw [Finset.card_image_of_injOn hinj, Nat.card_Icc] at hcard
  have hlen := used.toFinset_card_le
  omega

/-- Full characterization of `unique_slug`: the result avoids `used`; it is
the candidate itself when that is free, and otherwise the candidate suffixed
with the smallest integer `k ≥ 2` making it free. -/
theorem unique_slug_char (base : String) (used : List String) :
    (unique_slug base used ∉ used) ∧
    (slug_candidate base ∉ used → unique_slug base used = slug_candidate base) ∧
    (slug_candidate base ∈ used →
      ∃ k, 2 ≤ k ∧ unique_slug base used = slug_candidate base ++ "-" ++ natRepr k ∧
        (slug_candidate base ++ "-" ++ natRepr k) ∉ used ∧
        ∀ j, 2 ≤ j → j < k → (slug_candidate base ++ "-" ++ natRepr j) ∈ used) := by
  by_cases hmem : slug_candidate base ∈ used
  · obtain ⟨k0, hk02, hk0le, hk0free⟩ := exists_free_suffix (slug_candidate base) used
    have hP : ∃ k, 2 ≤ k ∧ (slug_candidate base ++ "-" ++ natRepr k) ∉ used :=
      ⟨k0, hk02, hk0free⟩
    set K := Nat.find hP with hK
    obtain ⟨hK2, hKfree⟩ := Nat.find_spec hP
    have hKmin : ∀ j, 2 ≤ j → j < K →
        (slug_candidate base ++ "-" ++ natRepr j) ∈ used := by
      intro j hj2 hjK
      have hmin := Nat.find_min hP hjK
      by_contra hnot
      exact hmin ⟨hj2, hnot⟩
    have hKle : K ≤ k0 := Nat.find_min' hP ⟨hk02, hk0free⟩
    have hprobe : probeFrom (slug_candidate base) used (used.length + 1) 2 =
        slug_candidate base ++ "-" ++ natRepr K :=
      probeFrom_eq _ _ _ 2 K hK2 hKfree (fun j hj1 hj2 => hKmin j hj1 hj2) (by omega)
    have hres : unique_slug base used = slug_candidate base ++ "-" ++ natRepr K := by
      simp only [unique_slug, if_pos hmem]
      exact hprobe
    refine ⟨?_, fun h => absurd hmem h, fun _ => ⟨K, hK2, hres, hKfree, hKmin⟩⟩
    rw [hres]
    exact hKfree
  · have hres : unique_slug base used = slug_candidate base := by
      simp only [unique_slug, if_neg hmem]
    exact ⟨hres ▸ hmem, fun _ => hres, fun h => absurd h hmem⟩

theorem unique_slug_not_mem (base : String) (used : List String) :
    unique_slug base used ∉ used :=
  (unique_slug_char base used).1

theorem slug_candidate_ne_empty (base : String) : slug_candidate base ≠ "" := by
  unfold slug_candidate
  by_cases h : slugify base = ""
  · simp only [h, if_pos rfl]
    decide
  · simpa only [if_neg h] using h

theorem unique_slug_ne_empty (base : String) (used : List String) :
    unique_slug base used ≠ "" := by
  obtain ⟨_, h2, h3⟩ := unique_slug_char base used
  by_cases hmem : slug_candidate base ∈ used
  · obtain ⟨k, _, heq, _, _⟩ := h3 hmem
    rw [heq]
    intro hcon
    have hd := congrArg String.data hcon
    simp only [String.data_append, List.append_assoc] at hd
    exact absurd (List.append_eq_nil.mp hd).2 (by simp)
  · rw [h2 hmem]
    exact slug_candidate_ne_empty base

/-! ## Shape of slugify output -/

theorem squashRuns_nil {p : Char → Bool} {rep : Char} {prev : Bool} :
    squashRuns p rep prev [] = [] := rfl

theorem squashRuns_cons_pos_true {p : Char → Bool} {rep x : Char} {l : List Char}
    (hpx : p x = true) : squashRuns p rep true (x :: l) = squashRuns p rep true l := by
  simp only [squashRuns, hpx, if_true]

theorem squashRuns_cons_pos_false {p : Char → Bool} {rep x : Char} {l : List Char}
    (hpx : p x = true) :
    squashRuns p rep false (x :: l) = rep :: squashRuns p rep true l := by
  simp only [squashRuns, hpx, if_true, Bool.false_eq_true, if_false]

theorem squashRuns_cons_neg {p : Char → Bool} {rep x : Char} {l : List Char}
    {prev : Bool} (hpx : p x = false) :
    squashRuns p rep prev (x :: l) = x :: squashRuns p rep false l := by
  simp only [squashRuns, hpx, Bool.false_eq_true, if_false]

theorem mem_squashRuns {p : Char → Bool} {rep : Char} :
    ∀ {l : List Char} {prev : Bool} {c : Char}, c ∈ squashRuns p rep prev l →
      c = rep ∨ (c ∈ l ∧ p c = false) := by
  intro l
  induction l with
  | nil => intro prev c h; simp [squashRuns] at h
  | cons x rest ih =>
    intro prev c h
    by_cases hpx : p x = true
    · cases prev with
      | true =>
        simp only [squashRuns, hpx, if_pos, if_true] at h
        rcases ih h with h1 | ⟨h2, h3⟩
        · exact Or.inl h1
        · exact Or.inr ⟨List.mem_cons_of_mem _ h2, h3⟩
      | false =>
        simp only [squashRuns, hpx, if_true] at h
        rcases List.mem_cons.mp h with h1 | h1
        · exact Or.inl h1
        · rcases ih h1 with h2 | ⟨h2, h3⟩
          · exact Or.inl h2
          · exact Or.inr ⟨List.mem_cons_of_mem _ h2, h3⟩
    · rw [Bool.not_eq_true] at hpx
      simp only [squashRuns, hpx, Bool.false_eq_true, if_false] at h
      rcases List.mem_cons.mp h with h1 | h1
      · exact Or.inr ⟨h1 ▸ List.mem_cons_self _ _, h1 ▸ hpx⟩
      · rcases ih h1 with h2 | ⟨h2, h3⟩
        · exact Or.inl h2
        · exact Or.inr ⟨List.mem_cons_of_mem _ h2, h3⟩

theorem head?_squashRuns_true {p : Char → Bool} {rep : Char} :
    ∀ {l : List Char} {c : Char}, (squashRuns p rep true l).head? = some c →
      p c = false := by
  intro l
  induction l with
  | nil => intro c h; simp [squashRuns] at h
  | cons x rest ih =>
    intro c h
    by_cases hpx : p x = true
    · simp only [squashRuns, hpx, if_true] at h
      exact ih h
    · rw [Bool.not_eq_true] at hpx
      simp only [squashRuns, hpx, Bool.false_eq_true, if_false, List.head?_cons,
        Option.some.injEq] at h
      exact h ▸ hpx

theorem getLast?_squashRuns {p : Char → Bool} {rep : Char} :
    ∀ {l : List Char} {prev : Bool} {c : Char}, l.getLast? = some c →
      p c = false → (squashRuns p rep prev l).getLast? = some c := by
  intro l
  induction l with
  | nil => intro prev c h; simp at h
  | cons x rest ih =>
    intro prev c h hc
    cases rest with
    | nil =>
      have hx : x = c := by simpa using h
      subst hx
      rw [squashRuns_cons_neg hc, squashRuns_nil]
      rfl
    | cons y rest' =>
      rw [List.getLast?_cons_cons] at h
      have htail : ∀ prev', (squashRuns p rep prev' (y :: rest')).getLast? = some c :=
        fun _ => ih h hc
      by_cases hpx : p x = true
      · cases prev with
        | true =>
          rw [squashRuns_cons_pos_true hpx]
          exact htail true
        | false =>
          rw [squashRuns_cons_pos_false hpx,
            show rep :: squashRuns p rep true (y :: rest') =
              [rep] ++ squashRuns p rep true (y :: rest') from rfl,
            List.getLast?_append, htail true]
          rfl
      · rw [Bool.not_eq_true] at hpx
        rw [squashRuns_cons_neg hpx,
          show x :: squashRuns p rep false (y :: rest') =
            [x] ++ squashRuns p rep false (y :: rest') from rfl,
          List.getLast?_append, htail false]
        rfl

theorem noDoubleHyphen_squashRuns :
    ∀ (l : List Char) (prev : Bool),
      noDoubleHyphen (squashRuns isHyphen '-' prev l) = true := by
  intro l
  induction l with
  | nil => intro prev; rfl
  | cons x rest ih =>
    intro prev
    by_cases hpx : isHyphen x = true
    · cases prev with
      | true =>
        rw [squashRuns_cons_pos_true hpx]
        exact ih true
      | false =>
        rw [squashRuns_cons_pos_false hpx]
        cases ht : squashRuns isHyphen '-' true rest with
        | nil => rfl
        | cons d t' =>
          have hd : isHyphen d = false := by
            apply head?_squashRuns_true (l := rest)
            rw [ht]
            rfl
          have hd2 : (d == '-') = false := hd
          simp only [noDoubleHyphen, hd2, Bool.and_false, Bool.not_false, Bool.true_and]
          rw [← ht]
          exact ih true
    · rw [Bool.not_eq_true] at hpx
      rw [squashRuns_cons_neg hpx]
      cases ht : squashRuns isHyphen '-' false rest with
      | nil => rfl
      | cons d t' =>
        have hx2 : (x == '-') = false := hpx
        simp only [noDoubleHyphen, hx2, Bool.false_and, Bool.not_false, Bool.true_and]
        rw [← ht]
        exact ih false

theorem head?_dropWhile_not {p : Char → Bool} :
    ∀ {l : List Char} {c : Char}, (l.dropWhile p).head? = some c → p c = false := by
  intro l
  induction l with
  | nil => intro c h; simp at h
  | cons x rest ih =>
    intro c h
    rw [List.dropWhile_cons] at h
    by_cases hpx : p x = true
    · rw [if_pos hpx] at h
      exact ih h
    · rw [Bool.not_eq_true] at hpx
      rw [if_neg (by simp [hpx]), List.head?_cons, Option.some.injEq] at h
      exact h ▸ hpx

theorem pyStrip_head_not {p : Char → Bool} {l : List Char} {c : Char}
    (h : (pyStrip p l).head? = some c) : p c = false := by
  unfold pyStrip at h
  obtain ⟨t, ht⟩ := List.rdropWhile_prefix p (l.dropWhile p)
  cases hr : List.rdropWhile p (l.dropWhile p) with
  | nil => rw [hr] at h; simp at h
  | cons d t' =>
    rw [hr, List.head?_cons, Option.some.injEq] at h
    subst h
    rw [hr] at ht
    apply head?_dropWhile_not (l := l)
    rw [← ht]
    rfl

theorem pyStrip_last_not {p : Char → Bool} {l : List Char} {c : Char}
    (h : (pyStrip p l).getLast? = some c) : p c = false := by
  unfold pyStrip List.rdropWhile at h
  rw [List.getLast?_eq_head?_reverse, List.reverse_reverse] at h
  exact head?_dropWhile_not h

theorem pyStrip_subset {p : Char → Bool} {l : List Char} {c : Char}
    (h : c ∈ pyStrip p l) : c ∈ l := by
  unfold pyStrip at h
  exact (List.dropWhile_sublist p).subset
    ((List.rdropWhile_prefix p (l.dropWhile p)).sublist.subset h)

theorem isSlugChar_of_keep_not_space {c : Char} (h1 : isSlugKeep c = true)
    (h2 : pyIsSpace c = false) : isSlugChar c = true := by
  rw [isSlugKeep, h2] at h1
  simp only [Bool.or_false, Bool.false_or] at h1
  exact h1

theorem not_hyphen_ne {c : Char} (h : isHyphen c = false) : c ≠ '-' := by
  rw [isHyphen, beq_eq_false_iff_ne] at h
  exact h

/-- The last two stages of `slugify` — strip boundary hyphens then collapse
hyphen runs — produce a well-formed slug from any list of slug characters. -/
theorem wellFormed_final (m : List Char) (hm : ∀ c ∈ m, isSlugChar c = true) :
    wellFormedSlugList (squashRuns isHyphen '-' false (pyStrip isHyphen m)) = true := by
  rw [wellFormedSlugList]
  simp only [Bool.and_eq_true]
  refine ⟨⟨⟨?_, ?_⟩, ?_⟩, ?_⟩
  · rw [List.all_eq_true]
    intro c hc
    rcases mem_squashRuns hc with h1 | ⟨h2, _⟩
    · subst h1; decide
    · exact hm c (pyStrip_subset h2)
  · cases hs : pyStrip isHyphen m with
    | nil => rw [squashRuns_nil]; decide
    | cons d rest =>
      have hd : isHyphen d = false := pyStrip_head_not (by rw [hs]; rfl)
      rw [squashRuns_cons_neg hd, List.head?_cons]
      simpa using not_hyphen_ne hd
  · cases hl : (pyStrip isHyphen m).getLast? with
    | none =>
      rw [List.getLast?_eq_none_iff] at hl
      rw [hl, squashRuns_nil]
      decide
    | some d =>
      have hd : isHyphen d = false := pyStrip_last_not hl
      rw [getLast?_squashRuns hl hd]
      simpa using not_hyphen_ne hd
  · exact noDoubleHyphen_squashRuns _ _

/-- Every character of the whitespace-collapsing stage's output, applied to
filtered input, is a slug character. -/
theorem stage_chars (l : List Char) :
    ∀ c ∈ squashRuns pyIsSpace '-' false (l.filter isSlugKeep),
      isSlugChar c = true := by
  intro c hc
  rcases mem_squashRuns hc with h1 | ⟨h2, h3⟩
  · subst h1; decide
  · exact isSlugChar_of_keep_not_space (List.mem_filter.mp h2).2 h3

theorem slugifyList_wellFormed (l : List Char) :
    wellFormedSlugList (slugifyList l) = true :=
  wellFormed_final _ (stage_chars _)

/-! ## slugify is the identity on well-formed slugs -/

theorem mem_of_head?_eq_some {l : List Char} {c : Char} (h : l.head? = some c) :
    c ∈ l := by
  cases l with
  | nil => simp at h
  | cons x rest =>
    rw [List.head?_cons, Option.some.injEq] at h
    subst h
    exact List.mem_cons_self _ _

theorem mem_of_getLast?_eq_some {l : List Char} {c : Char}
    (h : l.getLast? = some c) : c ∈ l := by
  rw [List.getLast?_eq_head?_reverse] at h
  exact List.mem_reverse.mp (mem_of_head?_eq_some h)

theorem dropWhile_eq_self_of_head {p : Char → Bool} {l : List Char}
    (h : ∀ c, l.head? = some c → p c = false) : l.dropWhile p = l := by
  cases l with
  | nil => rfl
  | cons x rest =>
    rw [List.dropWhile_cons, if_neg (by simp [h x rfl])]

theorem rdropWhile_eq_self_of_last {p : Char → Bool} {l : List Char}
    (h : ∀ c, l.getLast? = some c → p c = false) : List.rdropWhile p l = l := by
  unfold List.rdropWhile
  have hd : l.reverse.dropWhile p = l.reverse := by
    apply dropWhile_eq_self_of_head
    intro c hc
    rw [List.head?_reverse] at hc
    exact h c hc
  rw [hd, List.reverse_reverse]

theorem pyStrip_eq_self {p : Char → Bool} {l : List Char}
    (hh : ∀ c, l.head? = some c → p c = false)
    (hl : ∀ c, l.getLast? = some c → p c = false) : pyStrip p l = l := by
  unfold pyStrip
  rw [dropWhile_eq_self_of_head hh, rdropWhile_eq_self_of_last hl]

theorem map_eq_self_of_id {f : Char → Char} :
    ∀ {l : List Char}, (∀ c ∈ l, f c = c) → l.map f = l := by
  intro l
  induction l with
  | nil => intro _; rfl
  | cons x rest ih =>
    intro h
    rw [List.map_cons, h x (List.mem_cons_self _ _),
      ih (fun c hc => h c (List.mem_cons_of_mem _ hc))]

theorem flatMap_eq_self_of_single {f : Char → List Char} :
    ∀ {l : List Char}, (∀ c ∈ l, f c = [c]) → l.flatMap f = l := by
  intro l
  induction l with
  | nil => intro _; rfl
  | cons x rest ih =>
    intro h
    rw [List.flatMap_cons, h x (List.mem_cons_self _ _),
      ih (fun c hc => h c (List.mem_cons_of_mem _ hc))]
    rfl

theorem squashRuns_eq_self_of_not {p : Char → Bool} {rep : Char} :
    ∀ {l : List Char} {prev : Bool}, (∀ c ∈ l, p c = false) →
      squashRuns p rep prev l = l := by
  intro l
  induction l with
  | nil => intro _ _; rfl
  | cons x rest ih =>
    intro prev h
    rw [squashRuns_cons_neg (h x (List.mem_cons_self _ _)),
      ih (fun c hc => h c (List.mem_cons_of_mem _ hc))]

theorem isSlugChar_ranges {c : Char} (h : isSlugChar c = true) :
    (97 ≤ c.toNat ∧ c.toNat ≤ 122) ∨ (48 ≤ c.toNat ∧ c.toNat ≤ 57) ∨
      c.toNat = 45 := by
  rw [isSlugChar, Bool.or_eq_true, isLowerAlnum, decide_eq_true_eq, beq_iff_eq] at h
  tauto

theorem pyIsSpace_eq_false_of_slug {c : Char} (h : isSlugChar c = true) :
    pyIsSpace c = false := by
  have hr := isSlugChar_ranges h
  rw [pyIsSpace]
  simp only [Bool.or_eq_false_iff, beq_eq_false_iff_ne, ne_eq]
  omega

theorem pyLower_eq_self_of_slug {c : Char} (h : isSlugChar c = true) :
    pyLower c = c := by
  have hr := isSlugChar_ranges h
  rw [pyLower, if_neg (by omega), if_pos (by omega)]

theorem nfdStripMn_eq_single_of_slug {c : Char} (h : isSlugChar c = true) :
    nfdStripMn c = [c] := by
  have hr := isSlugChar_ranges h
  rw [nfdStripMn, if_pos (by omega)]

theorem isSlugKeep_of_slug {c : Char} (h : isSlugChar c = true) :
    isSlugKeep c = true := by
  rw [isSlugChar, Bool.or_eq_true] at h
  rw [isSlugKeep]
  rcases h with h1 | h1 <;> simp [h1]

theorem squashH_true_eq_false {l : List Char}
    (h : ∀ c, l.head? = some c → isHyphen c = false) :
    squashRuns isHyphen '-' true l = squashRuns isHyphen '-' false l := by
  cases l with
  | nil => rfl
  | cons x rest =>
    have hx := h x rfl
    rw [squashRuns_cons_neg hx, squashRuns_cons_neg hx]

theorem noDouble_cons_cons {a b : Char} {t : List Char}
    (h : noDoubleHyphen (a :: b :: t) = true) :
    (a == '-' && b == '-') = false ∧ noDoubleHyphen (b :: t) = true := by
  rw [noDoubleHyphen, Bool.and_eq_true, Bool.not_eq_true'] at h
  exact h

theorem squashH_eq_self : ∀ {l : List Char}, noDoubleHyphen l = true →
    squashRuns isHyphen '-' false l = l := by
  intro l
  induction l with
  | nil => intro _; rfl
  | cons x rest ih =>
    intro h
    have hrest : noDoubleHyphen rest = true := by
      cases rest with
      | nil => rfl
      | cons y t => exact (noDouble_cons_cons h).2
    by_cases hx : isHyphen x = true
    · rw [squashRuns_cons_pos_false hx]
      have hxeq : x = '-' := by rwa [isHyphen, beq_iff_eq] at hx
      subst hxeq
      have hhead : ∀ c, rest.head? = some c → isHyphen c = false := by
        intro c hc
        cases rest with
        | nil => simp at hc
        | cons y t =>
          rw [List.head?_cons, Option.some.injEq] at hc
          subst hc
          have hnd := (noDouble_cons_cons h).1
          simpa [isHyphen] using hnd
      rw [squashH_true_eq_false hhead, ih hrest]
    · rw [Bool.not_eq_true] at hx
      rw [squashRuns_cons_neg hx, ih hrest]

theorem slugifyList_eq_self {data : List Char}
    (h : wellFormedSlugList data = true) : slugifyList data = data := by
  rw [wellFormedSlugList] at h
  simp only [Bool.and_eq_true] at h
  obtain ⟨⟨⟨hall, hhead⟩, hlast⟩, hnd⟩ := h
  rw [List.all_eq_true] at hall
  have hslug : ∀ c ∈ data, isSlugChar c = true := fun c hc => hall c hc
  have hne : data.head? ≠ some '-' := by
    rw [Bool.not_eq_true', beq_eq_false_iff_ne, ne_eq] at hhead
    exact hhead
  have hnl : data.getLast? ≠ some '-' := by
    rw [Bool.not_eq_true', beq_eq_false_iff_ne, ne_eq] at hlast
    exact hlast
  have hh : ∀ c, data.head? = some c → isHyphen c = false := by
    intro c hc
    rw [isHyphen, beq_eq_false_iff_ne]
    intro hceq
    exact hne (hceq ▸ hc)
  have hl : ∀ c, data.getLast? = some c → isHyphen c = false := by
    intro c hc
    rw [isHyphen, beq_eq_false_iff_ne]
    intro hceq
    exact hnl (hceq ▸ hc)
  have e1 : pyStrip pyIsSpace data = data :=
    pyStrip_eq_self
      (fun c hc => pyIsSpace_eq_false_of_slug (hslug c (mem_of_head?_eq_some hc)))
      (fun c hc => pyIsSpace_eq_false_of_slug (hslug c (mem_of_getLast?_eq_some hc)))
  have e2 : data.map pyLower = data :=
    map_eq_self_of_id (fun c hc => pyLower_eq_self_of_slug (hslug c hc))
  have e3 : data.flatMap nfdStripMn = data :=
    flatMap_eq_self_of_single (fun c hc => nfdStripMn_eq_single_of_slug (hslug c hc))
  have e4 : data.filter isSlugKeep = data :=
    List.filter_eq_self.mpr (fun c hc => isSlugKeep_of_slug (hslug c hc))
  have e5 : squashRuns pyIsSpace '-' false data = data :=
    squashRuns_eq_self_of_not
      (fun c hc => pyIsSpace_eq_false_of_slug (hslug c hc))
  have e6 : pyStrip isHyphen data = data := pyStrip_eq_self hh hl
  have e7 : squashRuns isHyphen '-' false data = data := squashH_eq_self hnd
  show squashRuns isHyphen '-' false
      (pyStrip isHyphen (squashRuns pyIsSpace '-' false
        ((((pyStrip pyIsSpace data).map pyLower).flatMap nfdStripMn).filter
          isSlugKeep))) = data
  rw [e1, e2, e3, e4, e5, e6, e7]

/-! ## Claim C1 -/

/-- C1: for every name `n` and used-slug set `S`, `unique_slug n S` is not in
`S`; it is the unsuffixed candidate (`slugify n`, or the fallback base when
that is empty) whenever that candidate is not in `S`, and otherwise
`candidate-k` for the smallest integer `k ≥ 2` with `candidate-k ∉ S`. -/
theorem unique_slug_correct (n : String) (S : List String) :
    unique_slug n S ∉ S ∧
    (slug_candidate n ∉ S → unique_slug n S = slug_candidate n) ∧
    (slug_candidate n ∈ S →
      ∃ k, 2 ≤ k ∧ unique_slug n S = slug_candidate n ++ "-" ++ natRepr k ∧
        (slug_candidate n ++ "-" ++ natRepr k) ∉ S ∧
        ∀ j, 2 ≤ j → j < k → (slug_candidate n ++ "-" ++ natRepr j) ∈ S) :=
  unique_slug_char n S

theorem unique_slug_correct_witness :
    unique_slug "Liga Norte" ["liga-norte"] ∉ ["liga-norte"] ∧
    unique_slug "Liga Norte" ["lobos"] = slug_candidate "Liga Norte" :=
  ⟨(unique_slug_correct "Liga Norte" ["liga-norte"]).1,
   (unique_slug_correct "Liga Norte" ["lobos"]).2.1 (by decide)⟩

/-! ## Claim C7 -/

/-- C7 (counterexample): the input `"!"` normalizes to the empty string, yet
`slugify` returns the empty string for it, not the literal `"item"` the claim
promises — the fallback lives in `unique_slug`, not in `slugify`. -/
theorem slugify_empty_not_item :
    slugify "!" = "" ∧ ¬ (slugify "!" = "item") := by
  exact ⟨by decide, by decide⟩

/-- C7 (amended): for every input whose normalization yields the empty
string, `slugify` returns the empty string and the fallback is applied by
`unique_slug`, whose candidate becomes the literal `"item"`; `unique_slug`
returns `"item"` itself whenever `"item"` is not among the used slugs. -/
theorem unique_slug_item_fallback (n : String) (S : List String)
    (h : slugify n = "") :
    slug_candidate n = "item" ∧ ("item" ∉ S → unique_slug n S = "item") := by
  have hc : slug_candidate n = "item" := by
    rw [slug_candidate]
    simp [h]
  refine ⟨hc, fun hmem => ?_⟩
  have hres := (unique_slug_char n S).2.1 (by rw [hc]; exact hmem)
  rw [hres, hc]

theorem unique_slug_item_fallback_witness :
    slug_candidate "!" = "item" ∧ unique_slug "!" ["x"] = "item" :=
  ⟨(unique_slug_item_fallback "!" ["x"] (by decide)).1,
   (unique_slug_item_fallback "!" ["x"] (by decide)).2 (by decide)⟩

/-! ## Claim C9 -/

/-- C9: `slugify` is idempotent: `slugify (slugify x) = slugify x` for every
input string `x`. -/
theorem slugify_idempotent (x : String) : slugify (slugify x) = slugify x :=
  congrArg String.mk (slugifyList_eq_self (slugifyList_wellFormed x.data))

/-! ## Claim C10 -/

/-- C10: for every input string, `slugify`'s output is URL-safe well-formed:
only lowercase ASCII letters, digits and hyphens, with no leading or trailing
hyphen and no two consecutive hyphens. -/
theorem slugify_url_safe (s : String) : wellFormedSlug (slugify s) = true :=
  slugifyList_wellFormed s.data

/-! ## Claim C8 -/

theorem foldl_max_eq (xs : List Nat) :
    ∀ x : Nat, xs.foldl max x = max x (xs.foldr max 0) := by
  induction xs with
  | nil => intro x; simp
  | cons y ys ih =>
    intro x
    rw [List.foldl_cons, ih (max x y), List.foldr_cons, Nat.max_assoc]

/-- C8: `next_id` returns the decimal string of one more than the maximum of
the numeric ids present (the fold is `1` when there is none, since the
maximum of an empty set of naturals is `0`), and rows whose id is missing or
non-numeric are ignored: appending them never changes the result. -/
theorem next_id_correct :
    (∀ rows : List String,
      next_id rows =
        natRepr (((rows.filter pyIsDigitStr).map strToNat).foldr max 0 + 1)) ∧
    (∀ rows junk : List String, (∀ j ∈ junk, pyIsDigitStr j = false) →
      next_id (rows ++ junk) = next_id rows) := by
  have hmain : ∀ rows : List String,
      next_id rows =
        natRepr (((rows.filter pyIsDigitStr).map strToNat).foldr max 0 + 1) := by
    intro rows
    show (match (rows.filter pyIsDigitStr).map strToNat with
          | [] => natRepr 1
          | x :: xs => natRepr (xs.foldl max x + 1)) =
      natRepr (((rows.filter pyIsDigitStr).map strToNat).foldr max 0 + 1)
    cases hids : (rows.filter pyIsDigitStr).map strToNat with
    | nil => rfl
    | cons x xs =>
      show natRepr (List.foldl max x xs + 1) =
        natRepr (List.foldr max 0 (x :: xs) + 1)
      rw [foldl_max_eq, List.foldr_cons]
  refine ⟨hmain, fun rows junk hj => ?_⟩
  have hnil : junk.filter pyIsDigitStr = [] :=
    List.filter_eq_nil_iff.mpr (fun a ha => by simp [hj a ha])
  rw [hmain, hmain rows, List.filter_append, hnil, List.append_nil]

theorem next_id_correct_witness :
    next_id ["1", "7"] =
      natRepr (((["1", "7"].filter pyIsDigitStr).map strToNat).foldr max 0 + 1) ∧
    next_id (["1", "7"] ++ ["x", ""]) = next_id ["1", "7"] :=
  ⟨next_id_correct.1 ["1", "7"],
   next_id_correct.2 ["1", "7"] ["x", ""] (by decide)⟩

/-! ## Claim C2 -/

theorem dedup_filter_length_eq_iff (ms : List String) :
    ((ms.filter (fun s => s != "")).dedup.length = ms.length) ↔
      ms.Nodup ∧ ∀ s ∈ ms, s ≠ "" := by
  constructor
  · intro h
    have hsub : List.Sublist ((ms.filter (fun s => s != "")).dedup) ms :=
      (List.dedup_sublist _).trans (List.filter_sublist ms)
    have heq : (ms.filter (fun s => s != "")).dedup = ms := hsub.eq_of_length h
    constructor
    · rw [← heq]
      exact List.nodup_dedup _
    · intro s hs
      rw [← heq] at hs
      have hs2 := (List.mem_filter.mp (List.mem_dedup.mp hs)).2
      simpa using hs2
  · rintro ⟨hnd, hne⟩
    have hf : ms.filter (fun s => s != "") = ms :=
      List.filter_eq_self.mpr (fun a ha => by simpa using hne a ha)
    rw [hf, List.dedup_eq_self.mpr hnd]

theorem dup_slug_check_iff (ms : List String) :
    dup_slug_check ms ms.length = true ↔ (∃ s ∈ ms, s = "") ∨ ¬ ms.Nodup := by
  rw [dup_slug_check, bne_iff_ne, ne_eq, dedup_filter_length_eq_iff]
  constructor
  · intro h
    by_cases hnd : ms.Nodup
    · left
      by_contra hcon
      push_neg at hcon
      exact h ⟨hnd, hcon⟩
    · exact Or.inr hnd
  · rintro (⟨s, hs, hse⟩ | hnd) ⟨h1, h2⟩
    · exact (h2 s hs) hse
    · exact hnd h1

theorem mem_if_singleton {v w : Violation} {b : Bool} :
    (v ∈ if b then [w] else []) ↔ b = true ∧ v = w := by
  cases b <;> simp

theorem mem_validate_dupLeagues (ls : List League) (ts : List Team)
    (ps : List Player) :
    Violation.dupSlugLeagues ∈ validate_violations ls ts ps ↔
      dup_slug_check (ls.map League.slug) ls.length = true := by
  simp [validate_violations, player_violations, mem_if_singleton,
    List.mem_flatMap, List.mem_filter]

theorem mem_validate_dupTeams (ls : List League) (ts : List Team)
    (ps : List Player) :
    Violation.dupSlugTeams ∈ validate_violations ls ts ps ↔
      dup_slug_check (ts.map Team.slug) ts.length = true := by
  simp [validate_violations, player_violations, mem_if_singleton,
    List.mem_flatMap, List.mem_filter]

theorem mem_validate_dupPlayers (ls : List League) (ts : List Team)
    (ps : List Player) :
    Violation.dupSlugPlayers ∈ validate_violations ls ts ps ↔
      dup_slug_check (ps.map Player.slug) ps.length = true := by
  simp [validate_violations, player_violations, mem_if_singleton,
    List.mem_flatMap, List.mem_filter]

/-- C2 (counterexample): a collection of two leagues with slugs `"a"` and
`""` — no two distinct records share a non-empty slug — is nevertheless
reported by `validate` as a duplicate-slug violation, because line 164
compares the number of distinct non-empty slugs with the total number of
records. -/
theorem validate_dup_slug_cex :
    Violation.dupSlugLeagues ∈
      validate_violations
        [⟨"1", "A", "c", "lg", "a"⟩, ⟨"2", "B", "c", "lg", ""⟩] [] [] ∧
    List.Pairwise (fun a b : League => ¬ (a.slug = b.slug ∧ a.slug ≠ ""))
      [⟨"1", "A", "c", "lg", "a"⟩, ⟨"2", "B", "c", "lg", ""⟩] :=
  ⟨by decide, by decide⟩

/-- C2 (amended): for each entity collection, `validate` reports a
duplicate-slug violation iff some record's slug is empty or two distinct
records carry the same slug (equivalently, iff the slugs are not both
pairwise distinct and all non-empty); in particular a collection with an
empty-slug record is always reported, even when all non-empty slugs are
distinct. -/
theorem validate_dup_slug_iff (ls : List League) (ts : List Team)
    (ps : List Player) :
    (Violation.dupSlugLeagues ∈ validate_violations ls ts ps ↔
      (∃ l ∈ ls, l.slug = "") ∨ ¬ (ls.map League.slug).Nodup) ∧
    (Violation.dupSlugTeams ∈ validate_violations ls ts ps ↔
      (∃ t ∈ ts, t.slug = "") ∨ ¬ (ts.map Team.slug).Nodup) ∧
    (Violation.dupSlugPlayers ∈ validate_violations ls ts ps ↔
      (∃ p ∈ ps, p.slug = "") ∨ ¬ (ps.map Player.slug).Nodup) := by
  refine ⟨?_, ?_, ?_⟩
  · rw [mem_validate_dupLeagues]
    have h := dup_slug_check_iff (ls.map League.slug)
    rw [List.length_map] at h
    rw [h]
    simp [List.mem_map]
  · rw [mem_validate_dupTeams]
    have h := dup_slug_check_iff (ts.map Team.slug)
    rw [List.length_map] at h
    rw [h]
    simp [List.mem_map]
  · rw [mem_validate_dupPlayers]
    have h := dup_slug_check_iff (ps.map Player.slug)
    rw [List.length_map] at h
    rw [h]
    simp [List.mem_map]

theorem validate_dup_slug_iff_witness :
    Violation.dupSlugLeagues ∈
      validate_violations [⟨"1", "A", "c", "lg", "a"⟩, ⟨"2", "B", "c", "lg", ""⟩]
        [] [] :=
  (validate_dup_slug_iff
      [⟨"1", "A", "c", "lg", "a"⟩, ⟨"2", "B", "c", "lg", ""⟩] [] []).1.mpr
    (Or.inl ⟨⟨"2", "B", "c", "lg", ""⟩, by decide, rfl⟩)

/-! ## Claim C6 -/

theorem if_singleton_eq_nil {v : Violation} {b : Bool} :
    ((if b then [v] else []) = []) ↔ b = false := by
  cases b <;> simp

theorem player_violations_eq_nil (ts : List Team) (p : Player) :
    player_violations ts p = [] ↔
      bad_team_ref ts p = false ∧ bad_position p = false ∧
      bad_rating p = false ∧ bad_birth_date p = false := by
  rw [player_violations]
  simp only [List.append_eq_nil, if_singleton_eq_nil, and_assoc]

theorem validate_ok_iff_violations (ls : List League) (ts : List Team)
    (ps : List Player) :
    validate_ok ls ts ps = true ↔ validate_violations ls ts ps = [] := by
  rw [validate_ok, validate_violations]
  simp only [Bool.and_eq_true, Bool.not_eq_true', List.all_eq_true,
    List.append_eq_nil, if_singleton_eq_nil, List.map_eq_nil_iff,
    List.filter_eq_nil_iff, List.flatMap_eq_nil_iff, player_violations_eq_nil,
    Bool.not_eq_true, and_assoc]

/-- C6: `validate` returns `ok = true` iff the list of reported violations is
empty; and injecting any single defect — duplicate slug, dangling
`league_id`, dangling `team_id`, out-of-range non-zero rating, invalid
non-empty position, malformed non-empty birth date — into the otherwise
valid sample data yields `ok = false` together with the corresponding
violation. -/
theorem validate_ok_iff_defects :
    (∀ (ls : List League) (ts : List Team) (ps : List Player),
      validate_ok ls ts ps = true ↔ validate_violations ls ts ps = []) ∧
    validate_ok sampleLeagues sampleTeams samplePlayers = true ∧
    (validate_ok (sampleLeagues ++ [dupSlugLeague]) sampleTeams samplePlayers
        = false ∧
      Violation.dupSlugLeagues ∈
        validate_violations (sampleLeagues ++ [dupSlugLeague]) sampleTeams
          samplePlayers) ∧
    (validate_ok sampleLeagues [danglingTeam] samplePlayers = false ∧
      Violation.badLeagueRef danglingTeam ∈
        validate_violations sampleLeagues [danglingTeam] samplePlayers) ∧
    (validate_ok sampleLeagues sampleTeams [danglingPlayer] = false ∧
      Violation.badTeamRef danglingPlayer ∈
        validate_violations sampleLeagues sampleTeams [danglingPlayer]) ∧
    (validate_ok sampleLeagues sampleTeams [badRatingPlayer] = false ∧
      Violation.badRating badRatingPlayer ∈
        validate_violations sampleLeagues sampleTeams [badRatingPlayer]) ∧
    (validate_ok sampleLeagues sampleTeams [badPositionPlayer] = false ∧
      Violation.badPosition badPositionPlayer ∈
        validate_violations sampleLeagues sampleTeams [badPositionPlayer]) ∧
    (validate_ok sampleLeagues sampleTeams [badDatePlayer] = false ∧
      Violation.badDate badDatePlayer ∈
        validate_violations sampleLeagues sampleTeams [badDatePlayer]) :=
  ⟨validate_ok_iff_violations, by decide, ⟨by decide, by decide⟩,
    ⟨by decide, by decide⟩, ⟨by decide, by decide⟩, ⟨by decide, by decide⟩,
    ⟨by decide, by decide⟩, ⟨by decide, by decide⟩⟩

theorem validate_ok_iff_defects_witness :
    validate_ok [] [] [] = true :=
  (validate_ok_iff_defects.1 [] [] []).mpr rfl

/-! ## Claim C4 -/

/-- C4: `delete(Team T)` is a no-op reporting the blocked outcome with the
dependent-player count whenever at least one player has `team_id = T.id`;
when no player references the team, the confirmed delete removes exactly the
team records bearing that id. -/
theorem delete_team_guarded (st : DbState) (tid : String) (confirm : Bool)
    (t : Team) (hfind : st.teams.find? (fun x => x.id == tid) = some t) :
    ((∃ p ∈ st.players, p.team_id = tid) →
      menu_delete_team st tid confirm =
        (st, .blocked (st.players.countP (fun p => p.team_id == tid))) ∧
      0 < st.players.countP (fun p => p.team_id == tid)) ∧
    ((∀ p ∈ st.players, ¬ p.team_id = tid) →
      menu_delete_team st tid true =
        ({ st with teams := st.teams.filter (fun x => !(x.id == tid)) },
          .deleted) ∧
      ∀ x : Team, x ∈ st.teams.filter (fun x => !(x.id == tid)) ↔
        x ∈ st.teams ∧ ¬ x.id = tid) := by
  constructor
  · intro hex
    have hpos : 0 < st.players.countP (fun p => p.team_id == tid) := by
      rw [List.countP_pos_iff]
      obtain ⟨p, hp, he⟩ := hex
      exact ⟨p, hp, by simp [he]⟩
    refine ⟨?_, hpos⟩
    simp only [menu_delete_team, hfind]
    rw [if_pos hpos]
  · intro hall
    have hzero : st.players.countP (fun p => p.team_id == tid) = 0 := by
      rw [List.countP_eq_zero]
      intro p hp
      simp [hall p hp]
    constructor
    · simp only [menu_delete_team, hfind, hzero]
      rw [if_neg (by omega)]
      rfl
    · intro x
      rw [List.mem_filter]
      simp [Bool.not_eq_true']

theorem delete_team_guarded_witness :
    menu_delete_team ⟨[], sampleTeams, samplePlayers⟩ "1" false =
      (⟨[], sampleTeams, samplePlayers⟩, .blocked 1) ∧
    menu_delete_team ⟨[], sampleTeams, []⟩ "1" true = (⟨[], [], []⟩, .deleted) := by
  constructor
  · have h := (delete_team_guarded ⟨[], sampleTeams, samplePlayers⟩ "1" false
      ⟨"1", "Lobos", "1", "lg", "lobos"⟩ (by decide)).1
      ⟨⟨"1", "Ana", "Diaz", "1990-01-01", "1", "Chile", "ph", "Delantero", 90,
        "", "", "ana-diaz"⟩, by decide, rfl⟩
    rw [h.1]
    rfl
  · have h := (delete_team_guarded ⟨[], sampleTeams, []⟩ "1" true
      ⟨"1", "Lobos", "1", "lg", "lobos"⟩ (by decide)).2 (by simp)
    rw [h.1]
    rfl

/-! ## Claim C5 -/

/-- C5: after the confirmed `delete(League L)`, the league records with L's
id are removed (and no others), every team whose `league_id` equaled L's id
has it cleared to the empty string, no team record is removed, and the
players collection is unchanged. -/
theorem delete_league_cascade (st : DbState) (lid : String) (l : League)
    (hne : ¬ lid = "")
    (hfind : st.leagues.find? (fun x => x.id == lid) = some l) :
    (menu_delete_league st lid true).2 = .deleted ∧
    (menu_delete_league st lid true).1.leagues =
      st.leagues.filter (fun x => !(x.id == lid)) ∧
    (∀ x ∈ (menu_delete_league st lid true).1.leagues, ¬ x.id = lid) ∧
    (∀ x ∈ st.leagues, ¬ x.id = lid →
      x ∈ (menu_delete_league st lid true).1.leagues) ∧
    (menu_delete_league st lid true).1.teams.length = st.teams.length ∧
    (∀ t ∈ (menu_delete_league st lid true).1.teams, ¬ t.league_id = lid) ∧
    (∀ t ∈ st.teams, t.league_id = lid →
      { t with league_id := "" } ∈ (menu_delete_league st lid true).1.teams) ∧
    (∀ t ∈ st.teams, ¬ t.league_id = lid →
      t ∈ (menu_delete_league st lid true).1.teams) ∧
    (menu_delete_league st lid true).1.players = st.players := by
  have hres : menu_delete_league st lid true =
      ({ st with
          leagues := st.leagues.filter (fun x => !(x.id == lid)),
          teams := st.teams.map (fun t =>
            if t.league_id == lid then { t with league_id := "" } else t) },
        .deleted) := by
    simp only [menu_delete_league, hfind]
    rfl
  rw [hres]
  refine ⟨rfl, rfl, ?_, ?_, List.length_map _ _, ?_, ?_, ?_, rfl⟩
  · intro x hx
    have h2 := (List.mem_filter.mp hx).2
    simpa using h2
  · intro x hx hxne
    exact List.mem_filter.mpr ⟨hx, by simpa using hxne⟩
  · intro t ht
    rw [List.mem_map] at ht
    obtain ⟨t0, ht0, heq⟩ := ht
    by_cases hc : t0.league_id = lid
    · rw [if_pos (by simp [hc])] at heq
      rw [← heq]
      simpa using fun h => hne h.symm
    · rw [if_neg (by simp [hc])] at heq
      rw [← heq]
      exact hc
  · intro t ht hteq
    rw [List.mem_map]
    exact ⟨t, ht, by simp [hteq]⟩
  · intro t ht htne
    rw [List.mem_map]
    exact ⟨t, ht, by simp [htne]⟩

theorem delete_league_cascade_witness :
    (menu_delete_league ⟨sampleLeagues, sampleTeams, []⟩ "1" true).2 =
      .deleted ∧
    (menu_delete_league ⟨sampleLeagues, sampleTeams, []⟩ "1" true).1.players =
      [] := by
  have h := delete_league_cascade ⟨sampleLeagues, sampleTeams, []⟩ "1"
    ⟨"1", "Liga Norte", "Chile", "lg", "liga-norte"⟩ (by decide) (by decide)
  exact ⟨h.1, h.2.2.2.2.2.2.2.2⟩

/-! ## Claim C3 -/

theorem updateFirst_decomp {α : Type} (p : α → Bool) (f : α → α) :
    ∀ {ls : List α} {l : α}, ls.find? p = some l →
      ∃ pre post, ls = pre ++ l :: post ∧ (∀ x ∈ pre, p x = false) ∧
        updateFirst p f ls = some (pre ++ f l :: post) := by
  intro ls
  induction ls with
  | nil => intro l h; simp at h
  | cons x xs ih =>
    intro l h
    by_cases hpx : p x = true
    · rw [List.find?_cons_of_pos _ hpx, Option.some.injEq] at h
      subst h
      refine ⟨[], xs, rfl, by simp, ?_⟩
      simp only [updateFirst, if_pos hpx]
      rfl
    · rw [Bool.not_eq_true] at hpx
      rw [List.find?_cons_of_neg _ (by simp [hpx])] at h
      obtain ⟨pre, post, hls, hpre, hupd⟩ := ih h
      refine ⟨x :: pre, post, by rw [hls]; rfl, ?_, ?_⟩
      · intro y hy
        rcases List.mem_cons.mp hy with h1 | h1
        · exact h1 ▸ hpx
        · exact hpre y h1
      · simp only [updateFirst, hpx, Bool.false_eq_true, if_false, hupd,
          Option.map_some]
        rfl

theorem find?_prefix_cons {α : Type} (p : α → Bool) {pre : List α} {a : α}
    (post : List α) (hpre : ∀ x ∈ pre, p x = false) (ha : p a = true) :
    (pre ++ a :: post).find? p = some a := by
  induction pre with
  | nil => rw [List.nil_append, List.find?_cons_of_pos _ ha]
  | cons x xs ih =>
    rw [List.cons_append,
      List.find?_cons_of_neg _ (by simp [hpre x (List.mem_cons_self _ _)]),
      ih (fun y hy => hpre y (List.mem_cons_of_mem _ hy))]

theorem ensure_slug_entity_fresh (name : String) (slugs : List String)
    (s : String) (hs : s ∈ slugs) : ¬ s = ensure_slug_entity name slugs := by
  intro heq
  by_cases hse : s = ""
  · rw [hse] at heq
    exact unique_slug_ne_empty name ((slugs.filter (fun x => x != "")).dedup)
      heq.symm
  · have hmem : s ∈ (slugs.filter (fun x => x != "")).dedup :=
      List.mem_dedup.mpr (List.mem_filter.mpr ⟨hs, by simpa using hse⟩)
    rw [heq] at hmem
    exact unique_slug_not_mem name _ hmem

/-- C3: for every record and every edit, the slug is preserved exactly when
no identity-bearing field (league name, team name, player first/last name)
changes; when one changes, the slug is recomputed via `unique_slug` over the
slugs of all other records of the collection, and hence differs from every
other record's slug. -/
theorem edit_reslug_policy :
    (∀ (ls : List League) (lid name country logo : String) (l : League),
      ls.find? (fun x => x.id == lid) = some l →
      ∃ ls', menu_edit_league ls lid name country logo = some ls' ∧
        ∃ l', ls'.find? (fun x => x.id == lid) = some l' ∧
          (name = l.name → l'.slug = l.slug) ∧
          (¬ name = l.name →
            l'.slug = ensure_slug_entity name
              ((ls.filter (fun x => !(x.id == lid))).map League.slug) ∧
            ∀ x ∈ ls', ¬ x.id = lid → ¬ x.slug = l'.slug)) ∧
    (∀ (ts : List Team) (tid name lgid logo : String) (t : Team),
      ts.find? (fun x => x.id == tid) = some t →
      ∃ ts', menu_edit_team ts tid name lgid logo = some ts' ∧
        ∃ t', ts'.find? (fun x => x.id == tid) = some t' ∧
          (name = t.name → t'.slug = t.slug) ∧
          (¬ name = t.name →
            t'.slug = ensure_slug_entity name
              ((ts.filter (fun x => !(x.id == tid))).map Team.slug) ∧
            ∀ x ∈ ts', ¬ x.id = tid → ¬ x.slug = t'.slug)) ∧
    (∀ (ps : List Player)
      (pid fn ln birth tid country photo position : String)
      (rating : Int) (sofifa face : String) (q : Player),
      ps.find? (fun x => x.id == pid) = some q →
      ∃ ps', menu_edit_player ps pid fn ln birth tid country photo position
          rating sofifa face = some ps' ∧
        ∃ q', ps'.find? (fun x => x.id == pid) = some q' ∧
          (fn = q.first_name → ln = q.last_name → q'.slug = q.slug) ∧
          (¬ (fn = q.first_name ∧ ln = q.last_name) →
            q'.slug = ensure_slug_entity (fn ++ " " ++ ln)
              ((ps.filter (fun x => !(x.id == pid))).map Player.slug) ∧
            ∀ x ∈ ps', ¬ x.id = pid → ¬ x.slug = q'.slug)) := by
  refine ⟨?_, ?_, ?_⟩
  · intro ls lid name country logo l hfind
    have hpl : (l.id == lid) = true := by
      have h0 := List.find?_some hfind
      exact h0
    have hlid : l.id = lid := by simpa using hpl
    obtain ⟨pre, post, hls, hpre, hupd⟩ := updateFirst_decomp
      (fun (x : League) => x.id == lid)
      (fun (r : League) =>
        { r with
          slug := if name != r.name then
              ensure_slug_entity name
                ((ls.filter (fun x => !(x.id == lid))).map League.slug)
            else r.slug,
          name := name, country := country, logo := logo }) hfind
    refine ⟨_, hupd, _, find?_prefix_cons _ post hpre hpl, ?_, ?_⟩
    · intro hsame
      show (if name != l.name then _ else l.slug) = l.slug
      rw [if_neg (by simp [hsame])]
    · intro hchanged
      have hslug : (if name != l.name then
          ensure_slug_entity name
            ((ls.filter (fun x => !(x.id == lid))).map League.slug)
          else l.slug) = ensure_slug_entity name
            ((ls.filter (fun x => !(x.id == lid))).map League.slug) := by
        rw [if_pos (by simpa using hchanged)]
      refine ⟨hslug, ?_⟩
      intro x hx hxid
      show ¬ x.slug = (if name != l.name then _ else l.slug)
      rw [hslug]
      apply ensure_slug_entity_fresh
      rw [List.mem_map]
      refine ⟨x, List.mem_filter.mpr ⟨?_, by simpa using hxid⟩, rfl⟩
      rw [hls]
      rcases List.mem_append.mp hx with h1 | h1
      · exact List.mem_append.mpr (Or.inl h1)
      · rcases List.mem_cons.mp h1 with h2 | h2
        · exact absurd (by rw [h2]; exact hlid) hxid
        · exact List.mem_append.mpr (Or.inr (List.mem_cons_of_mem _ h2))
  · intro ts tid name lgid logo t hfind
    have hpt : (t.id == tid) = true := by
      have h0 := List.find?_some hfind
      exact h0
    have htid : t.id = tid := by simpa using hpt
    obtain ⟨pre, post, hts, hpre, hupd⟩ := updateFirst_decomp
      (fun (x : Team) => x.id == tid)
      (fun (r : Team) =>
        { r with
          slug := if name != r.name then
              ensure_slug_entity name
                ((ts.filter (fun x => !(x.id == tid))).map Team.slug)
            else r.slug,
          name := name, league_id := lgid, logo := logo }) hfind
    refine ⟨_, hupd, _, find?_prefix_cons _ post hpre hpt, ?_, ?_⟩
    · intro hsame
      show (if name != t.name then _ else t.slug) = t.slug
      rw [if_neg (by simp [hsame])]
    · intro hchanged
      have hslug : (if name != t.name then
          ensure_slug_entity name
            ((ts.filter (fun x => !(x.id == tid))).map Team.slug)
          else t.slug) = ensure_slug_entity name
            ((ts.filter (fun x => !(x.id == tid))).map Team.slug) := by
        rw [if_pos (by simpa using hchanged)]
      refine ⟨hslug, ?_⟩
      intro x hx hxid
      show ¬ x.slug = (if name != t.name then _ else t.slug)
      rw [hslug]
      apply ensure_slug_entity_fresh
      rw [List.mem_map]
      refine ⟨x, List.mem_filter.mpr ⟨?_, by simpa using hxid⟩, rfl⟩
      rw [hts]
      rcases List.mem_append.mp hx with h1 | h1
      · exact List.mem_append.mpr (Or.inl h1)
      · rcases List.mem_cons.mp h1 with h2 | h2
        · exact absurd (by rw [h2]; exact htid) hxid
        · exact List.mem_append.mpr (Or.inr (List.mem_cons_of_mem _ h2))
  · intro ps pid fn ln birth tid country photo position rating sofifa face q
      hfind
    have hpq : (q.id == pid) = true := by
      have h0 := List.find?_some hfind
      exact h0
    have hqid : q.id = pid := by simpa using hpq
    obtain ⟨pre, post, hps, hpre, hupd⟩ := updateFirst_decomp
      (fun (x : Player) => x.id == pid)
      (fun (r : Player) =>
        { r with
          slug := if fn != r.first_name || ln != r.last_name then
              ensure_slug_entity (fn ++ " " ++ ln)
                ((ps.filter (fun x => !(x.id == pid))).map Player.slug)
            else r.slug,
          first_name := fn, last_name := ln, birth_date := birth,
          team_id := tid, country := country, photo := photo,
          position := position, rating := rating, sofifa_url := sofifa,
          face_video_url := face }) hfind
    refine ⟨_, hupd, _, find?_prefix_cons _ post hpre hpq, ?_, ?_⟩
    · intro hf hl
      show (if fn != q.first_name || ln != q.last_name then _ else q.slug)
        = q.slug
      rw [if_neg (by simp [hf, hl])]
    · intro hchanged
      have hcond : (fn != q.first_name || ln != q.last_name) = true := by
        rcases Decidable.not_and_iff_or_not.mp hchanged with h | h <;>
          simp [h]
      have hslug : (if fn != q.first_name || ln != q.last_name then
          ensure_slug_entity (fn ++ " " ++ ln)
            ((ps.filter (fun x => !(x.id == pid))).map Player.slug)
          else q.slug) = ensure_slug_entity (fn ++ " " ++ ln)
            ((ps.filter (fun x => !(x.id == pid))).map Player.slug) := by
        rw [if_pos hcond]
      refine ⟨hslug, ?_⟩
      intro x hx hxid
      show ¬ x.slug =
        (if fn != q.first_name || ln != q.last_name then _ else q.slug)
      rw [hslug]
      apply ensure_slug_entity_fresh
      rw [List.mem_map]
      refine ⟨x, List.mem_filter.mpr ⟨?_, by simpa using hxid⟩, rfl⟩
      rw [hps]
      rcases List.mem_append.mp hx with h1 | h1
      · exact List.mem_append.mpr (Or.inl h1)
      · rcases List.mem_cons.mp h1 with h2 | h2
        · exact absurd (by rw [h2]; exact hqid) hxid
        · exact List.mem_append.mpr (Or.inr (List.mem_cons_of_mem _ h2))

theorem edit_reslug_policy_witness :
    (menu_edit_league sampleLeagues "1" "Liga Norte" "Peru" "lg2").isSome =
      true := by
  obtain ⟨ls', h, _⟩ := edit_reslug_policy.1 sampleLeagues "1" "Liga Norte"
    "Peru" "lg2" ⟨"1", "Liga Norte", "Chile", "lg", "liga-norte"⟩ (by decide)
  rw [h]
  rfl

end ManageDb
